import Mathlib

/-!
Verification development for the Spider solitaire repository.

The repository ships a single source file, `spider.pyw`, which is the
Tk user-interface layer (class `Spider`): it creates the two Boolean
option variables (`circular`, `open`), attaches write-traces that call
`optionChanged`, and builds a menu whose `New` entry calls
`Spider.deal`.  The game engine itself (the `Model` class with
`reset`, `deal`, `adjustOpen`, its move and foundation operations) is
imported from a module that is not part of the repository, so the
engine operations below are modelled from the specification's
description of them; the UI layer (`Spider.optionChanged`,
`Spider.deal`, variable initialisation and trace attachment) is
translated from `spider.pyw` itself.

Conventions: a pile is a `List Card` whose head is the TOP card of the
pile; ranks are `Nat` with Ace = 1 and King = 13.
-/

namespace Spider

/-- The four suits of a standard deck. -/
inductive Suit where
  | spades
  | hearts
  | diamonds
  | clubs
deriving DecidableEq, Repr

/-- Modelled from the spec: a card has a rank (Ace = 1 … King = 13), a
suit, and a face-up flag. -/
structure Card where
  rank : Nat
  suit : Suit
  faceUp : Bool
deriving DecidableEq, Repr

instance : Inhabited Card := ⟨⟨1, Suit.spades, false⟩⟩

/-- Modelled from the spec: the engine state — one stock, ten waste
piles, eight foundation piles, and the two mode flags `circular` and
`open` (the latter named `openFlag` because `open` is a Lean keyword).
Each pile is listed top card first. -/
structure GameState where
  stock : List Card
  waste : List (List Card)
  foundations : List (List Card)
  circular : Bool
  openFlag : Bool
deriving DecidableEq, Repr

/-- Modelled from the spec: deal-time failure modes. -/
inductive DealError where
  | EmptyPileBlocksDeal
  | StockExhausted
deriving DecidableEq, Repr

/-- Modelled from the spec: move-time failure modes. -/
inductive MoveError where
  | IllegalRun
  | RankMismatch
deriving DecidableEq, Repr

/-- Modelled from the spec: foundation-collection failure modes. -/
inductive CollectError where
  | NoCompleteSequence
  | NoFreeFoundation
deriving DecidableEq, Repr

/-- Modelled from the spec: `above` may sit directly on `below` when it
is one rank lower, or — under the circular variant — when a King
(rank 13) is placed on an Ace (rank 1). -/
def stackable (circ : Bool) (above below : Nat) : Bool :=
  decide (below = above + 1) || (circ && decide (above = 13 ∧ below = 1))

/-- Modelled from the spec: a legal run — a nonempty sequence of
face-up cards listed top first, all of one suit, in strictly descending
rank going up the pile (each card one rank below the card beneath it,
with the King-to-Ace wrap allowed under the circular variant). -/
def isRun (circ : Bool) : List Card → Bool
  | [] => false
  | [c] => c.faceUp
  | a :: b :: rest =>
      a.faceUp && decide (a.suit = b.suit) && stackable circ a.rank b.rank
        && isRun circ (b :: rest)

/-- Modelled from the spec: the run's bottom card may be placed on the
destination pile — always when the destination is empty, otherwise when
`stackable` allows it on the destination's top card. -/
def canPlace (circ : Bool) (run dest : List Card) : Bool :=
  match run.getLast?, dest with
  | some b, t :: _ => stackable circ b.rank t.rank
  | some _, [] => true
  | none, _ => false

/-- Turn the top card of a pile face-up (no-op on an empty pile). -/
def flipTop : List Card → List Card
  | [] => []
  | c :: rest => { c with faceUp := true } :: rest

/-- Modelled from the spec: `tryMove(sourcePile, cardIndexInRun,
destPile)`.  The run is everything from the card index (counted from
the bottom of the pile) to the top of the source pile; the move is
validated — legal run first, then placement — before any mutation, and
on success the run moves to the destination pile and a face-down card
exposed on the source pile is flipped face-up.  On failure the state is
returned unchanged together with the error. -/
def tryMove (s : GameState) (src idx dst : Nat) : GameState × Option MoveError :=
  if src < s.waste.length ∧ dst < s.waste.length then
    let p := s.waste.getD src []
    let run := p.take (p.length - idx)
    if isRun s.circular run then
      if canPlace s.circular run (s.waste.getD dst []) then
        let waste1 := s.waste.set src (flipTop (p.drop (p.length - idx)))
        ({ s with waste := waste1.set dst (run ++ waste1.getD dst []) }, none)
      else (s, some MoveError.RankMismatch)
    else (s, some MoveError.IllegalRun)
  else (s, some MoveError.IllegalRun)

/-- Deal one face-up card to each pile, first card to first pile. -/
def dealCards : List Card → List (List Card) → List (List Card)
  | _, [] => []
  | [], ps => ps
  | c :: cs, p :: ps => ({ c with faceUp := true } :: p) :: dealCards cs ps

/-- Modelled from the spec: `dealRow()` fails with
`EmptyPileBlocksDeal` when some waste pile is empty, with
`StockExhausted` when the stock is empty, and otherwise moves the top
ten stock cards one onto each waste pile, face-up. -/
def dealRow (s : GameState) : GameState × Option DealError :=
  if s.waste.any List.isEmpty then (s, some DealError.EmptyPileBlocksDeal)
  else if s.stock.isEmpty then (s, some DealError.StockExhausted)
  else
    ({ s with stock := s.stock.drop 10,
              waste := dealCards (s.stock.take 10) s.waste }, none)

/-- Check that the cards carry suit `su` and ranks `r+1, r+2, …` in
list order. -/
def ascendingFrom (su : Suit) : Nat → List Card → Bool
  | _, [] => true
  | r, c :: rest =>
      decide (c.suit = su) && decide (c.rank = r + 1) && ascendingFrom su (r + 1) rest

/-- Modelled from the spec: the pile's top 13 cards form a complete
same-suit King-down-to-Ace sequence — with the top card first, ranks
run Ace (1) up to King (13), all in one suit. -/
def isCompleteSeq (p : List Card) : Bool :=
  match p.take 13 with
  | [] => false
  | c :: rest =>
      decide ((c :: rest).length = 13) && decide (c.rank = 1)
        && ascendingFrom c.suit 1 rest

/-- Index of the first empty pile in a list of piles, if any. -/
def firstFreeIdx : List (List Card) → Option Nat
  | [] => none
  | p :: ps => if p.isEmpty then some 0 else (firstFreeIdx ps).map (· + 1)

/-- Modelled from the spec: `collectFoundation(pile)` — fails with
`NoCompleteSequence` unless the pile's top 13 cards are a complete
same-suit King-down-to-Ace sequence; otherwise moves those 13 cards to
the first free foundation pile (failing with `NoFreeFoundation` when
none is free) and flips the newly exposed waste-pile card face-up. -/
def collectFoundation (s : GameState) (i : Nat) : GameState × Option CollectError :=
  let p := s.waste.getD i []
  if isCompleteSeq p then
    match firstFreeIdx s.foundations with
    | some f =>
        ({ s with waste := s.waste.set i (flipTop (p.drop 13)),
                  foundations := s.foundations.set f (p.take 13) }, none)
    | none => (s, some CollectError.NoFreeFoundation)
  else (s, some CollectError.NoCompleteSequence)

/-- The classic Spider layout: the leftmost four waste piles get six
cards, the remaining six get five. -/
def pileSizes : List Nat := [6, 6, 6, 6, 5, 5, 5, 5, 5, 5]

/-- Cut a deck into piles of the given sizes; returns the piles and the
remaining cards. -/
def splitPiles (deck : List Card) : List Nat → List (List Card) × List Card
  | [] => ([], deck)
  | n :: ns =>
      let rest := splitPiles (deck.drop n) ns
      ((deck.take n) :: rest.1, rest.2)

/-- Modelled from the spec: face-up policy of the initial deal — under
`open` every dealt card starts face-up, otherwise only the top card of
each waste pile does. -/
def mkPile (op : Bool) : List Card → List Card
  | [] => []
  | t :: rest => { t with faceUp := true } :: rest.map (fun c => { c with faceUp := op })

/-- Modelled from the spec: `reset(circular, open)` — distributes a
(shuffled) 104-card double deck into the ten waste piles (leftmost four
of six cards, the rest of five), leaves the remaining 50 cards in the
stock face-down, empties the eight foundations, and records the two
mode flags.  The shuffled deck is passed in explicitly so that the
shuffle itself stays outside the model. -/
def reset (deck : List Card) (circ op : Bool) : GameState :=
  let cut := splitPiles deck pileSizes
  { stock := cut.2.map (fun c => { c with faceUp := false }),
    waste := cut.1.map (mkPile op),
    foundations := List.replicate 8 [],
    circular := circ,
    openFlag := op }

/-- Modelled from the spec: `adjustOpen(open)` records the visibility
policy for future deals. -/
def adjustOpen (s : GameState) (op : Bool) : GameState :=
  { s with openFlag := op }

/-- Sum of the lengths of a list of piles. -/
def sumLens (ps : List (List Card)) : Nat :=
  (ps.map List.length).sum

/-- Total number of cards in play: stock + waste piles + foundations. -/
def totalCards (s : GameState) : Nat :=
  s.stock.length + sumLens s.waste + sumLens s.foundations

/-- The structural invariant behind the card-count claim: ten waste
piles and 104 cards in play. -/
def Inv (s : GameState) : Prop :=
  s.waste.length = 10 ∧ totalCards s = 104

/-- States reachable from a `reset` on a full 104-card double deck by
any sequence of `dealRow`, `tryMove` and `collectFoundation` calls,
successful or failed. -/
inductive Reachable : GameState → Prop where
  | init (deck : List Card) (circ op : Bool) (h : deck.length = 104) :
      Reachable (reset deck circ op)
  | deal (s : GameState) : Reachable s → Reachable (dealRow s).1
  | move (s : GameState) (src idx dst : Nat) :
      Reachable s → Reachable (tryMove s src idx dst).1
  | collect (s : GameState) (i : Nat) :
      Reachable s → Reachable (collectFoundation s i).1

/-! ### The UI layer, translated from `spider.pyw`

`spider.pyw` is modelled as the list of engine calls each UI action
emits: a Tk `BooleanVar` is a value plus a flag saying whether a
write-trace has been attached, and writing it fires the trace handler
(`Spider.optionChanged`) when attached. -/

/-- A call into the engine (`self.model` in `spider.pyw`). -/
inductive EngineCall where
  | reset (circ op : Bool)
  | adjustOpen (op : Bool)
  | deal (circ op : Bool)
deriving DecidableEq, Repr

/-- A Tk `BooleanVar`: its Boolean value, and whether a write-trace has
been attached to it.  `tk.BooleanVar()` starts out `False`. -/
structure TkVar where
  value : Bool
  hasTrace : Bool
deriving DecidableEq, Repr

/-- The option variables of the `Spider` UI object: `self.circular`
and `self.open` (the latter named `openVar` because `open` is a Lean
keyword). -/
structure UIState where
  circular : TkVar
  openVar : TkVar
deriving DecidableEq, Repr

/-- `Spider.optionChanged` (spider.pyw lines 121–124): calls
`model.reset(circular.get(), open.get())` and then
`model.adjustOpen(open.get())`. -/
def optionChanged (ui : UIState) : List EngineCall :=
  [EngineCall.reset ui.circular.value ui.openVar.value,
   EngineCall.adjustOpen ui.openVar.value]

/-- Tk write semantics for a traced variable: store the new value,
then — when a write-trace is attached — fire the handler
(`Spider.optionChanged` here, as attached on lines 67–68).  Returns the
new UI state and the engine calls the write triggered. -/
def writeVar (ui : UIState) (isCirc : Bool) (b : Bool) : UIState × List EngineCall :=
  let ui' := if isCirc then { ui with circular := { ui.circular with value := b } }
             else { ui with openVar := { ui.openVar with value := b } }
  let traced := if isCirc then ui.circular.hasTrace else ui.openVar.hasTrace
  (ui', if traced then optionChanged ui' else [])

/-- Clicking a Tk checkbutton (the `Circular` or `Open` option of
spider.pyw lines 108–109) writes the opposite of the variable's current
value to it. -/
def toggleCheckbutton (ui : UIState) (isCirc : Bool) : UIState × List EngineCall :=
  writeVar ui isCirc
    (! (if isCirc then ui.circular.value else ui.openVar.value))

/-- `Spider.deal` (spider.pyw lines 72–75): calls
`model.deal(circular.get(), open.get())`. -/
def spiderDeal (ui : UIState) : List EngineCall :=
  [EngineCall.deal ui.circular.value ui.openVar.value]

/-- `Spider.makeMenu` (spider.pyw line 103): the `New` menu entry's
command is `self.deal`. -/
def menuNewCommand (ui : UIState) : List EngineCall :=
  spiderDeal ui

/-- `Spider.__init__` lines 63–68: create both option variables, set
each to `False`, and only then attach the `optionChanged` write-traces.
Returns the resulting UI state and every engine call emitted by these
six lines. -/
def spiderInitOptions : UIState × List EngineCall :=
  let ui0 : UIState :=
    { circular := { value := false, hasTrace := false },
      openVar := { value := false, hasTrace := false } }
  let r1 := writeVar ui0 true false
  let r2 := writeVar r1.1 false false
  let ui3 := { r2.1 with circular := { r2.1.circular with hasTrace := true } }
  let ui4 := { ui3 with openVar := { ui3.openVar with hasTrace := true } }
  (ui4, r1.2 ++ r2.2)

/-- Modelled from the spec: the engine semantics of each UI-emitted
call.  `Model.deal` — the engine method behind the `New` menu entry —
is not in the repository; the spec describes `New` as "reset+deal",
i.e. a reset that rebuilds and deals the initial layout from a fresh
shuffled deck, so `deal` is given the same state semantics as `reset`. -/
def EngineCall.apply (deck : List Card) : EngineCall → GameState → GameState
  | .reset c o, _ => Spider.reset deck c o
  | .adjustOpen o, s => Spider.adjustOpen s o
  | .deal c o, _ => Spider.reset deck c o

/-- One concrete 52-card deck, all face-down. -/
def oneDeck : List Card :=
  (List.range 52).map (fun n =>
    { rank := n % 13 + 1,
      suit := if n < 13 then Suit.spades
              else if n < 26 then Suit.hearts
              else if n < 39 then Suit.diamonds
              else Suit.clubs,
      faceUp := false })

/-- Two 52-card decks, the full 104 cards of Spider. -/
def fullDeck : List Card := oneDeck ++ oneDeck

/-- A concrete state used to instantiate the move theorems: pile 0 has
the 4♠ and 5♠ face-up over a face-down 9♥, pile 1 a face-up 6♥. -/
def exMoveState : GameState :=
  { stock := [],
    waste := [[⟨4, Suit.spades, true⟩, ⟨5, Suit.spades, true⟩, ⟨9, Suit.hearts, false⟩],
              [⟨6, Suit.hearts, true⟩], [], [], [], [], [], [], [], []],
    foundations := List.replicate 8 [],
    circular := false, openFlag := false }

/-- A concrete state whose pile 0 carries a complete spade sequence
over a face-down 9♥, with pile 2 empty (so dealing fails too). -/
def exCollectState : GameState :=
  { stock := [],
    waste := ((List.range 13).map (fun j => ⟨j + 1, Suit.spades, true⟩)
                ++ [⟨9, Suit.hearts, false⟩]) ::
             [⟨6, Suit.hearts, true⟩] :: List.replicate 8 [],
    foundations := List.replicate 8 [],
    circular := false, openFlag := false }

/-! ### Spec-side predicates

These definitions follow the words of the specification's claims, to be
compared with the executable definitions above. -/

/-- Claim wording for a legal run: every card face-up, strictly
descending in rank toward the top (each card one rank below the card
beneath it, King-to-Ace wrap under `circular`), uniform in suit. -/
def legalRunSpec (circ : Bool) (l : List Card) : Prop :=
  l ≠ [] ∧ (∀ c ∈ l, c.faceUp = true) ∧
    l.Chain' (fun a b => a.suit = b.suit ∧
      (b.rank = a.rank + 1 ∨ (circ = true ∧ a.rank = 13 ∧ b.rank = 1)))

/-- Claim wording for placement: the destination pile is empty, or the
run's bottom card is exactly one rank lower than the destination's top
card, or — under `circular` — a King is placed on an Ace. -/
def canPlaceSpec (circ : Bool) (run dest : List Card) : Prop :=
  dest = [] ∨
    ∃ b t rest, run.getLast? = some b ∧ dest = t :: rest ∧
      (t.rank = b.rank + 1 ∨ (circ = true ∧ b.rank = 13 ∧ t.rank = 1))

/-- Claim wording for a collectable pile: the top 13 cards exist, carry
ranks Ace (1) up to King (13) from the top down, and share one suit. -/
def completeTopSpec (p : List Card) : Prop :=
  (p.take 13).length = 13 ∧
  (∀ j, j < 13 → ((p.take 13).getD j default).rank = j + 1) ∧
  ∃ su, ∀ c ∈ p.take 13, c.suit = su

/-! ### List-level helper lemmas -/

theorem getD_set_self {α : Type} (l : List α) (i : Nat) (x d : α)
    (h : i < l.length) : (l.set i x).getD i d = x := by
  simp [List.getD_eq_getElem?_getD, List.getElem?_set_self', h]

theorem getD_set_ne {α : Type} (l : List α) (i j : Nat) (x d : α)
    (h : i ≠ j) : (l.set i x).getD j d = l.getD j d := by
  simp [List.getD_eq_getElem?_getD, List.getElem?_set_ne h]

theorem sumLens_cons (p : List Card) (ps : List (List Card)) :
    sumLens (p :: ps) = p.length + sumLens ps := by
  simp [sumLens]

theorem sumLens_set (ps : List (List Card)) (i : Nat) (q : List Card)
    (h : i < ps.length) :
    sumLens (ps.set i q) + (ps.getD i []).length = sumLens ps + q.length := by
  induction ps generalizing i with
  | nil => simp at h
  | cons p rest ih =>
      cases i with
      | zero => simp [sumLens_cons]; omega
      | succ i =>
          simp only [List.set_cons_succ, sumLens_cons, List.getD_cons_succ]
          have := ih i (by simpa using h)
          omega

theorem flipTop_length (l : List Card) : (flipTop l).length = l.length := by
  cases l <;> simp [flipTop]

theorem dealCards_length (cs : List Card) (ps : List (List Card)) :
    (dealCards cs ps).length = ps.length := by
  induction cs generalizing ps with
  | nil => cases ps <;> simp [dealCards]
  | cons c cs ih => cases ps <;> simp [dealCards, ih]

theorem dealCards_sumLens (cs : List Card) (ps : List (List Card)) :
    sumLens (dealCards cs ps) = sumLens ps + min cs.length ps.length := by
  induction cs generalizing ps with
  | nil => cases ps <;> simp [dealCards]
  | cons c cs ih =>
      cases ps with
      | nil => simp [dealCards]
      | cons p rest =>
          simp only [dealCards, sumLens_cons, ih, List.length_cons]
          omega

theorem dealCards_getD (cs : List Card) (ps : List (List Card)) (i : Nat)
    (hc : i < cs.length) (hp : i < ps.length) :
    (dealCards cs ps).getD i [] =
      { cs.getD i default with faceUp := true } :: ps.getD i [] := by
  induction cs generalizing ps i with
  | nil => simp at hc
  | cons c cs ih =>
      cases ps with
      | nil => simp at hp
      | cons p rest =>
          cases i with
          | zero => simp [dealCards]
          | succ i =>
              simp only [dealCards, List.getD_cons_succ]
              exact ih rest i (by simpa using hc) (by simpa using hp)

theorem mkPile_length (op : Bool) (l : List Card) :
    (mkPile op l).length = l.length := by
  cases l <;> simp [mkPile]

theorem splitPiles_fst_length (ns : List Nat) (deck : List Card) :
    (splitPiles deck ns).1.length = ns.length := by
  induction ns generalizing deck with
  | nil => simp [splitPiles]
  | cons n ns ih => simp [splitPiles, ih]

theorem splitPiles_count (ns : List Nat) (deck : List Card) :
    sumLens (splitPiles deck ns).1 + (splitPiles deck ns).2.length = deck.length := by
  induction ns generalizing deck with
  | nil => simp [splitPiles, sumLens]
  | cons n ns ih =>
      simp only [splitPiles, sumLens_cons, List.length_take]
      have := ih (deck.drop n)
      simp only [List.length_drop] at this
      omega

theorem firstFreeIdx_spec (ps : List (List Card)) (f : Nat)
    (h : firstFreeIdx ps = some f) : f < ps.length ∧ ps.getD f [] = [] := by
  induction ps generalizing f with
  | nil => simp [firstFreeIdx] at h
  | cons p rest ih =>
      by_cases hp : p.isEmpty = true
      · simp only [firstFreeIdx, if_pos hp, Option.some.injEq] at h
        subst h
        exact ⟨by simp, by simpa [List.isEmpty_iff] using hp⟩
      · simp only [firstFreeIdx, if_neg hp, Option.map_eq_some'] at h
        obtain ⟨g, hg, rfl⟩ := h
        have := ih g hg
        exact ⟨by simpa using Nat.succ_lt_succ this.1, by simpa using this.2⟩

theorem firstFreeIdx_isSome_of_any (ps : List (List Card))
    (h : ps.any List.isEmpty = true) : (firstFreeIdx ps).isSome = true := by
  induction ps with
  | nil => simp at h
  | cons p rest ih =>
      by_cases hp : p.isEmpty = true
      · simp [firstFreeIdx, hp]
      · simp only [List.any_cons, Bool.or_eq_true] at h
        have := ih (h.resolve_left hp)
        simp only [firstFreeIdx, if_neg hp, Option.isSome_map']
        exact this

theorem stackable_iff (circ : Bool) (above below : Nat) :
    stackable circ above below = true ↔
      below = above + 1 ∨ (circ = true ∧ above = 13 ∧ below = 1) := by
  simp [stackable]

theorem isRun_ne_nil {circ : Bool} {l : List Card} (h : isRun circ l = true) :
    l ≠ [] := by
  intro hnil
  subst hnil
  simp [isRun] at h

theorem isRun_head_faceUp {circ : Bool} {a : Card} {l : List Card}
    (h : isRun circ (a :: l) = true) : a.faceUp = true := by
  cases l with
  | nil => simpa [isRun] using h
  | cons b r =>
      simp only [isRun, Bool.and_eq_true] at h
      exact h.1.1.1

theorem isRun_iff (circ : Bool) (l : List Card) :
    isRun circ l = true ↔ legalRunSpec circ l := by
  induction l with
  | nil => simp [isRun, legalRunSpec]
  | cons a t ih =>
      cases t with
      | nil => simp [isRun, legalRunSpec]
      | cons b r =>
          simp only [isRun, Bool.and_eq_true, decide_eq_true_iff, stackable_iff,
            legalRunSpec, ne_eq, List.chain'_cons, List.mem_cons,
            forall_eq_or_imp] at ih ⊢
          constructor
          · rintro ⟨⟨⟨ha, hsuit⟩, hrank⟩, hrest⟩
            have := ih.mp hrest
            refine ⟨by simp, ⟨ha, this.2.1⟩, ⟨hsuit, hrank⟩, this.2.2⟩
          · rintro ⟨-, ⟨ha, hfu⟩, ⟨hsuit, hrank⟩, hchain⟩
            exact ⟨⟨⟨ha, hsuit⟩, hrank⟩, ih.mpr ⟨by simp, hfu, hchain⟩⟩

theorem canPlace_iff (circ : Bool) (run dest : List Card) (h : run ≠ []) :
    canPlace circ run dest = true ↔ canPlaceSpec circ run dest := by
  obtain ⟨b, hb⟩ : ∃ b, run.getLast? = some b := by
    cases hr : run.getLast? with
    | none => exact absurd (List.getLast?_eq_none_iff.mp hr) h
    | some b => exact ⟨b, rfl⟩
  cases dest with
  | nil => simp [canPlace, canPlaceSpec, hb]
  | cons t rest =>
      simp [canPlace, canPlaceSpec, hb, stackable_iff]

/-- A successful `tryMove` implies both validations passed and
describes the resulting state exactly. -/
theorem tryMove_success_char (s : GameState) (src idx dst : Nat)
    (h : (tryMove s src idx dst).2 = none) :
    src < s.waste.length ∧ dst < s.waste.length ∧
    isRun s.circular ((s.waste.getD src []).take ((s.waste.getD src []).length - idx)) = true ∧
    canPlace s.circular ((s.waste.getD src []).take ((s.waste.getD src []).length - idx))
      (s.waste.getD dst []) = true ∧
    (tryMove s src idx dst).1 =
      { s with waste :=
          ((s.waste.set src
              (flipTop ((s.waste.getD src []).drop ((s.waste.getD src []).length - idx)))).set dst
            (((s.waste.getD src []).take ((s.waste.getD src []).length - idx)) ++
              ((s.waste.set src
                  (flipTop ((s.waste.getD src []).drop
                    ((s.waste.getD src []).length - idx)))).getD dst []))) } := by
  simp only [tryMove] at h ⊢
  split_ifs at h ⊢ with h1 h2 h3
  exact ⟨h1.1, h1.2, h2, h3, rfl⟩

/-- C1: `tryMove(sourcePile, cardIndexInRun, destPile)` succeeds if and
only if the selected run — everything from the card index to the top of
the source pile — is entirely face-up, strictly descending in rank
(with the King-to-Ace wrap counting as descending under the circular
flag) and uniform in suit, and additionally the destination pile is
empty, or the run's bottom card is exactly one rank lower than the
destination's top card, or the circular flag is set and a King is
placed on an Ace. -/
theorem tryMove_succeeds_iff (s : GameState) (src idx dst : Nat)
    (hs : src < s.waste.length) (hd : dst < s.waste.length) :
    (tryMove s src idx dst).2 = none ↔
      legalRunSpec s.circular
        ((s.waste.getD src []).take ((s.waste.getD src []).length - idx)) ∧
      canPlaceSpec s.circular
        ((s.waste.getD src []).take ((s.waste.getD src []).length - idx))
        (s.waste.getD dst []) := by
  have hcond : src < s.waste.length ∧ dst < s.waste.length := ⟨hs, hd⟩
  simp only [tryMove]
  rw [if_pos hcond]
  by_cases h1 : isRun s.circular
      ((s.waste.getD src []).take ((s.waste.getD src []).length - idx)) = true
  · by_cases h2 : canPlace s.circular
        ((s.waste.getD src []).take ((s.waste.getD src []).length - idx))
        (s.waste.getD dst []) = true
    · rw [if_pos h1, if_pos h2]
      have hr := (isRun_iff s.circular _).mp h1
      have hp := (canPlace_iff s.circular _ (s.waste.getD dst []) hr.1).mp h2
      exact iff_of_true rfl ⟨hr, hp⟩
    · rw [if_pos h1, if_neg h2]
      refine iff_of_false (by simp) ?_
      rintro ⟨hr, hp⟩
      exact h2 ((canPlace_iff s.circular _ (s.waste.getD dst []) hr.1).mpr hp)
  · rw [if_neg h1]
    refine iff_of_false (by simp) ?_
    rintro ⟨hr, -⟩
    exact h1 ((isRun_iff s.circular _).mpr hr)

theorem tryMove_succeeds_iff_witness :
    (tryMove exMoveState 0 1 1).2 = none ↔
      legalRunSpec exMoveState.circular
        ((exMoveState.waste.getD 0 []).take ((exMoveState.waste.getD 0 []).length - 1)) ∧
      canPlaceSpec exMoveState.circular
        ((exMoveState.waste.getD 0 []).take ((exMoveState.waste.getD 0 []).length - 1))
        (exMoveState.waste.getD 1 []) :=
  tryMove_succeeds_iff exMoveState 0 1 1 (by decide) (by decide)

/-- C2: on a well-formed state (ten waste piles, stock a multiple of
ten cards — here: empty or at least ten), `dealRow()` fails exactly
when some waste pile is empty (`EmptyPileBlocksDeal`) or the stock is
empty (`StockExhausted`); otherwise it succeeds, moving exactly ten
cards off the stock and appending exactly one new face-up card to each
of the ten waste piles, and a failed deal leaves the state untouched
(all piles receive a card or none do). -/
theorem dealRow_spec (s : GameState) (hw : s.waste.length = 10)
    (hstock : s.stock = [] ∨ 10 ≤ s.stock.length) :
    ((dealRow s).2 ≠ none ↔ ((∃ p ∈ s.waste, p = []) ∨ s.stock = [])) ∧
    ((∃ p ∈ s.waste, p = []) → (dealRow s).2 = some DealError.EmptyPileBlocksDeal) ∧
    ((¬ ∃ p ∈ s.waste, p = []) → s.stock = [] →
      (dealRow s).2 = some DealError.StockExhausted) ∧
    ((dealRow s).2 = none →
      (dealRow s).1.stock = s.stock.drop 10 ∧
      s.stock.length = (dealRow s).1.stock.length + 10 ∧
      (dealRow s).1.foundations = s.foundations ∧
      (dealRow s).1.waste.length = 10 ∧
      (∀ i, i < 10 → ∃ c : Card, c.faceUp = true ∧
        (dealRow s).1.waste.getD i [] = c :: s.waste.getD i [])) ∧
    ((dealRow s).2 ≠ none → (dealRow s).1 = s) := by
  have hempty : s.waste.any List.isEmpty = true ↔ ∃ p ∈ s.waste, p = [] := by
    simp [List.any_eq_true, List.isEmpty_iff]
  by_cases hA : s.waste.any List.isEmpty = true
  · have h1 : dealRow s = (s, some DealError.EmptyPileBlocksDeal) := by
      simp [dealRow, hA]
    rw [h1]
    refine ⟨?_, fun _ => rfl, ?_, by simp, fun _ => rfl⟩
    · simp [hempty.mp hA]
    · intro hno
      exact absurd (hempty.mp hA) hno
  · by_cases hB : s.stock.isEmpty = true
    · have h1 : dealRow s = (s, some DealError.StockExhausted) := by
        simp [dealRow, hA, hB]
      rw [h1]
      have hse : s.stock = [] := List.isEmpty_iff.mp hB
      refine ⟨by simp [hse], ?_, fun _ _ => rfl, by simp, fun _ => rfl⟩
      · intro hex
        exact absurd (hempty.mpr hex) hA
    · have hlen : 10 ≤ s.stock.length := by
        rcases hstock with h | h
        · exact absurd (List.isEmpty_iff.mpr h) hB
        · exact h
      have h1 : dealRow s =
          ({ s with stock := s.stock.drop 10,
                    waste := dealCards (s.stock.take 10) s.waste }, none) := by
        simp [dealRow, hA, hB]
      rw [h1]
      have hse : s.stock ≠ [] := fun h => hB (List.isEmpty_iff.mpr h)
      refine ⟨?_, ?_, fun _ h => absurd h hse, ?_, by simp⟩
      · constructor
        · intro h; exact absurd rfl h
        · rintro (hex | hnil)
          · exact absurd (hempty.mpr hex) hA
          · exact absurd hnil hse
      · intro hex
        exact absurd (hempty.mpr hex) hA
      · intro _
        refine ⟨rfl, by simp [List.length_drop]; omega, rfl, by rw [dealCards_length, hw], ?_⟩
        intro i hi
        refine ⟨{ (s.stock.take 10).getD i default with faceUp := true }, rfl, ?_⟩
        exact dealCards_getD _ _ i (by simp [List.length_take]; omega) (by omega)

theorem dealRow_spec_witness :
    ((dealRow exCollectState).2 ≠ none ↔
      ((∃ p ∈ exCollectState.waste, p = []) ∨ exCollectState.stock = [])) ∧
    ((∃ p ∈ exCollectState.waste, p = []) →
      (dealRow exCollectState).2 = some DealError.EmptyPileBlocksDeal) ∧
    ((¬ ∃ p ∈ exCollectState.waste, p = []) → exCollectState.stock = [] →
      (dealRow exCollectState).2 = some DealError.StockExhausted) ∧
    ((dealRow exCollectState).2 = none →
      (dealRow exCollectState).1.stock = exCollectState.stock.drop 10 ∧
      exCollectState.stock.length = (dealRow exCollectState).1.stock.length + 10 ∧
      (dealRow exCollectState).1.foundations = exCollectState.foundations ∧
      (dealRow exCollectState).1.waste.length = 10 ∧
      (∀ i, i < 10 → ∃ c : Card, c.faceUp = true ∧
        (dealRow exCollectState).1.waste.getD i [] =
          c :: exCollectState.waste.getD i [])) ∧
    ((dealRow exCollectState).2 ≠ none → (dealRow exCollectState).1 = exCollectState) :=
  dealRow_spec exCollectState (by decide) (Or.inl (by decide))

theorem ascendingFrom_iff (su : Suit) (r : Nat) (l : List Card) :
    ascendingFrom su r l = true ↔
      ((∀ c ∈ l, c.suit = su) ∧
        ∀ j, j < l.length → (l.getD j default).rank = r + 1 + j) := by
  induction l generalizing r with
  | nil => simp [ascendingFrom]
  | cons c t ih =>
      simp only [ascendingFrom, Bool.and_eq_true, decide_eq_true_iff, List.mem_cons,
        forall_eq_or_imp, List.length_cons]
      rw [ih (r + 1)]
      constructor
      · rintro ⟨⟨hsu, hrk⟩, hsuits, hranks⟩
        refine ⟨⟨hsu, hsuits⟩, ?_⟩
        intro j hj
        cases j with
        | zero => simpa using hrk
        | succ j =>
            simp only [List.getD_cons_succ]
            have := hranks j (by omega)
            omega
      · rintro ⟨⟨hsu, hsuits⟩, hranks⟩
        refine ⟨⟨hsu, by simpa using hranks 0 (by omega)⟩, hsuits, ?_⟩
        intro j hj
        have := hranks (j + 1) (by omega)
        simp only [List.getD_cons_succ] at this
        omega

theorem isCompleteSeq_iff (p : List Card) :
    isCompleteSeq p = true ↔ completeTopSpec p := by
  cases h : p.take 13 with
  | nil => simp [isCompleteSeq, h, completeTopSpec]
  | cons c rest =>
      simp only [isCompleteSeq, h, Bool.and_eq_true, decide_eq_true_iff,
        completeTopSpec]
      rw [ascendingFrom_iff]
      constructor
      · rintro ⟨⟨hlen, hr1⟩, hsuits, hranks⟩
        refine ⟨hlen, ?_, ⟨c.suit, ?_⟩⟩
        · intro j hj
          cases j with
          | zero => simpa using hr1
          | succ j =>
              simp only [List.getD_cons_succ]
              have hjr : j < rest.length := by
                simp only [List.length_cons] at hlen
                omega
              have := hranks j hjr
              omega
        · intro d hd
          rcases List.mem_cons.mp hd with rfl | hd
          · rfl
          · exact hsuits d hd
      · rintro ⟨hlen, hranks, su, hsuits⟩
        have hcsu : c.suit = su := hsuits c (by simp)
        refine ⟨⟨hlen, by simpa using hranks 0 (by omega)⟩, ?_, ?_⟩
        · intro d hd
          rw [hcsu]
          exact hsuits d (by simp [hd])
        · intro j hj
          have hlt : j + 1 < 13 := by
            simp only [List.length_cons] at hlen
            omega
          have := hranks (j + 1) hlt
          simp only [List.getD_cons_succ] at this
          omega

theorem isCompleteSeq_length {p : List Card} (h : isCompleteSeq p = true) :
    13 ≤ p.length := by
  rcases (isCompleteSeq_iff p).mp h with ⟨hlen, -, -⟩
  simp only [List.length_take] at hlen
  omega

theorem tryMove_foundations (s : GameState) (src idx dst : Nat) :
    (tryMove s src idx dst).1.foundations = s.foundations := by
  simp only [tryMove]
  split_ifs <;> rfl

theorem tryMove_failure_eq (s : GameState) (src idx dst : Nat)
    (h : (tryMove s src idx dst).2 ≠ none) : (tryMove s src idx dst).1 = s := by
  simp only [tryMove] at h ⊢
  split_ifs at h ⊢ <;> first | rfl | exact absurd rfl h

theorem dealRow_failure_eq (s : GameState)
    (h : (dealRow s).2 ≠ none) : (dealRow s).1 = s := by
  simp only [dealRow] at h ⊢
  split_ifs at h ⊢ <;> first | rfl | exact absurd rfl h

theorem collectFoundation_failure_eq (s : GameState) (i : Nat)
    (h : (collectFoundation s i).2 ≠ none) : (collectFoundation s i).1 = s := by
  simp only [collectFoundation] at h ⊢
  split_ifs at h ⊢ with h1
  · cases hx : firstFreeIdx s.foundations with
    | none => simp [hx]
    | some f => rw [hx] at h; simp at h
  · rfl

theorem tryMove_sumLens (s : GameState) (src idx dst : Nat) :
    sumLens (tryMove s src idx dst).1.waste = sumLens s.waste := by
  by_cases h : (tryMove s src idx dst).2 = none
  · obtain ⟨hs, hd, hrun, hplace, heq⟩ := tryMove_success_char s src idx dst h
    rw [heq]
    dsimp only
    have hp : (s.waste.set src
        (flipTop ((s.waste.getD src []).drop
          ((s.waste.getD src []).length - idx)))).length = s.waste.length := by
      simp
    have h1 := sumLens_set s.waste src
      (flipTop ((s.waste.getD src []).drop ((s.waste.getD src []).length - idx))) hs
    have h2 := sumLens_set
      (s.waste.set src
        (flipTop ((s.waste.getD src []).drop ((s.waste.getD src []).length - idx))))
      dst
      (((s.waste.getD src []).take ((s.waste.getD src []).length - idx)) ++
        ((s.waste.set src
            (flipTop ((s.waste.getD src []).drop
              ((s.waste.getD src []).length - idx)))).getD dst []))
      (by rw [hp]; exact hd)
    simp only [flipTop_length, List.length_drop, List.length_append,
      List.length_take] at h1 h2
    omega
  · rw [tryMove_failure_eq s src idx dst h]

/-- C3: a completed King-to-Ace sequence is never removed from a waste
pile automatically by a move — `tryMove` never changes the foundations
nor the total number of cards in the waste piles; removal happens only
through `collectFoundation(pile)`, which (when a foundation is free)
succeeds exactly when the pile's top 13 cards form a contiguous
same-suit King-down-to-Ace sequence, fails with `NoCompleteSequence`
otherwise, and on success moves exactly those 13 cards into one free
foundation pile and flips the newly exposed waste-pile card face-up if
it was face-down. -/
theorem collectFoundation_spec (s : GameState) (src idx dst i : Nat)
    (hfree : s.foundations.any List.isEmpty = true) :
    ((tryMove s src idx dst).1.foundations = s.foundations ∧
     sumLens (tryMove s src idx dst).1.waste = sumLens s.waste) ∧
    ((collectFoundation s i).2 = none ↔ completeTopSpec (s.waste.getD i [])) ∧
    ((collectFoundation s i).2 ≠ none →
      (collectFoundation s i).2 = some CollectError.NoCompleteSequence) ∧
    ((collectFoundation s i).2 = none →
      ∃ f, f < s.foundations.length ∧ s.foundations.getD f [] = [] ∧
        (collectFoundation s i).1.foundations =
          s.foundations.set f ((s.waste.getD i []).take 13) ∧
        (collectFoundation s i).1.waste =
          s.waste.set i (flipTop ((s.waste.getD i []).drop 13)) ∧
        (collectFoundation s i).1.stock = s.stock) := by
  refine ⟨⟨tryMove_foundations s src idx dst, tryMove_sumLens s src idx dst⟩, ?_⟩
  by_cases hc : isCompleteSeq (s.waste.getD i []) = true
  · obtain ⟨f, hf⟩ : ∃ f, firstFreeIdx s.foundations = some f := by
      have hsome := firstFreeIdx_isSome_of_any s.foundations hfree
      cases hx : firstFreeIdx s.foundations with
      | none => rw [hx] at hsome; simp at hsome
      | some f => exact ⟨f, rfl⟩
    have hcol : collectFoundation s i =
        ({ s with waste := s.waste.set i (flipTop ((s.waste.getD i []).drop 13)),
                  foundations :=
                    s.foundations.set f ((s.waste.getD i []).take 13) }, none) := by
      simp only [collectFoundation]
      rw [if_pos hc, hf]
    rw [hcol]
    obtain ⟨hflt, hfempty⟩ := firstFreeIdx_spec s.foundations f hf
    refine ⟨iff_of_true rfl ((isCompleteSeq_iff _).mp hc), by simp, ?_⟩
    intro _
    exact ⟨f, hflt, hfempty, rfl, rfl, rfl⟩
  · have hcol : collectFoundation s i = (s, some CollectError.NoCompleteSequence) := by
      simp only [collectFoundation]
      rw [if_neg hc]
    rw [hcol]
    refine ⟨?_, fun _ => rfl, by simp⟩
    exact iff_of_false (by simp) (fun hspec => hc ((isCompleteSeq_iff _).mpr hspec))

theorem collectFoundation_spec_witness :
    ((tryMove exCollectState 1 0 0).1.foundations = exCollectState.foundations ∧
     sumLens (tryMove exCollectState 1 0 0).1.waste = sumLens exCollectState.waste) ∧
    ((collectFoundation exCollectState 0).2 = none ↔
      completeTopSpec (exCollectState.waste.getD 0 [])) ∧
    ((collectFoundation exCollectState 0).2 ≠ none →
      (collectFoundation exCollectState 0).2 = some CollectError.NoCompleteSequence) ∧
    ((collectFoundation exCollectState 0).2 = none →
      ∃ f, f < exCollectState.foundations.length ∧
        exCollectState.foundations.getD f [] = [] ∧
        (collectFoundation exCollectState 0).1.foundations =
          exCollectState.foundations.set f ((exCollectState.waste.getD 0 []).take 13) ∧
        (collectFoundation exCollectState 0).1.waste =
          exCollectState.waste.set 0 (flipTop ((exCollectState.waste.getD 0 []).drop 13)) ∧
        (collectFoundation exCollectState 0).1.stock = exCollectState.stock) :=
  collectFoundation_spec exCollectState 1 0 0 0 (by decide)

theorem canPlace_nil_dest (circ : Bool) (run : List Card) (h : run ≠ []) :
    canPlace circ run [] = true := by
  obtain ⟨b, hb⟩ : ∃ b, run.getLast? = some b := by
    cases hr : run.getLast? with
    | none => exact absurd (List.getLast?_eq_none_iff.mp hr) h
    | some b => exact ⟨b, rfl⟩
  simp [canPlace, hb]

/-- C6: after every successful `tryMove`, the card at the new top of
the source pile — when one remains — is face-up (a face-down card
exposed by removing the run is flipped as part of the move); and an
empty destination pile accepts any legal run regardless of rank. -/
theorem move_flips_and_empty_accepts (s : GameState) (src idx dst : Nat) :
    ((tryMove s src idx dst).2 = none →
      ((tryMove s src idx dst).1.waste.getD src [] = [] ∨
        ∃ c rest, (tryMove s src idx dst).1.waste.getD src [] = c :: rest ∧
          c.faceUp = true)) ∧
    (src < s.waste.length → dst < s.waste.length →
      s.waste.getD dst [] = [] →
      isRun s.circular
        ((s.waste.getD src []).take ((s.waste.getD src []).length - idx)) = true →
      (tryMove s src idx dst).2 = none) := by
  constructor
  · intro h
    obtain ⟨hs, hd, hrun, hplace, heq⟩ := tryMove_success_char s src idx dst h
    rw [heq]
    dsimp only
    by_cases hsd : src = dst
    · subst hsd
      rw [getD_set_self _ _ _ _ (by simpa using hs)]
      cases hr : (s.waste.getD src []).take ((s.waste.getD src []).length - idx) with
      | nil =>
          rw [hr] at hrun
          simp [isRun] at hrun
      | cons c rest =>
          right
          exact ⟨c, rest ++ _, rfl, isRun_head_faceUp (hr ▸ hrun)⟩
    · rw [getD_set_ne _ _ _ _ _ (fun he => hsd he.symm),
        getD_set_self _ _ _ _ hs]
      cases hdk : (s.waste.getD src []).drop ((s.waste.getD src []).length - idx) with
      | nil => left; simp [hdk, flipTop]
      | cons c rest =>
          right
          exact ⟨{ c with faceUp := true }, rest, rfl, rfl⟩
  · intro hs hd hdest hrun
    have hcond : src < s.waste.length ∧ dst < s.waste.length := ⟨hs, hd⟩
    have hplace : canPlace s.circular
        ((s.waste.getD src []).take ((s.waste.getD src []).length - idx))
        (s.waste.getD dst []) = true := by
      rw [hdest]
      exact canPlace_nil_dest _ _ (isRun_ne_nil hrun)
    simp only [tryMove]
    rw [if_pos hcond, if_pos hrun, if_pos hplace]

theorem move_flips_and_empty_accepts_witness :
    ((tryMove exMoveState 0 1 2).1.waste.getD 0 [] = [] ∨
      ∃ c rest, (tryMove exMoveState 0 1 2).1.waste.getD 0 [] = c :: rest ∧
        c.faceUp = true) ∧
    (tryMove exMoveState 0 1 2).2 = none :=
  ⟨(move_flips_and_empty_accepts exMoveState 0 1 2).1 (by decide),
   (move_flips_and_empty_accepts exMoveState 0 1 2).2
     (by decide) (by decide) (by decide) (by decide)⟩

/-- C9: for every engine operation and every state, a call that
returns an error leaves the game state identical to the state before
the call — validation fully precedes mutation. -/
theorem failed_op_leaves_state (s : GameState) (src idx dst i : Nat) :
    ((dealRow s).2 ≠ none → (dealRow s).1 = s) ∧
    ((tryMove s src idx dst).2 ≠ none → (tryMove s src idx dst).1 = s) ∧
    ((collectFoundation s i).2 ≠ none → (collectFoundation s i).1 = s) :=
  ⟨dealRow_failure_eq s, tryMove_failure_eq s src idx dst,
    collectFoundation_failure_eq s i⟩

theorem failed_op_leaves_state_witness :
    (dealRow exCollectState).1 = exCollectState ∧
    (tryMove exCollectState 2 0 3).1 = exCollectState ∧
    (collectFoundation exCollectState 1).1 = exCollectState :=
  ⟨(failed_op_leaves_state exCollectState 2 0 3 1).1 (by decide),
   (failed_op_leaves_state exCollectState 2 0 3 1).2.1 (by decide),
   (failed_op_leaves_state exCollectState 2 0 3 1).2.2 (by decide)⟩

/-! ### The card-count invariant (C4) -/

theorem sumLens_map_mkPile (op : Bool) (ps : List (List Card)) :
    sumLens (ps.map (mkPile op)) = sumLens ps := by
  induction ps with
  | nil => simp [sumLens]
  | cons p rest ih => simp [sumLens_cons, mkPile_length, ih]

theorem reset_Inv (deck : List Card) (circ op : Bool) (h : deck.length = 104) :
    Inv (reset deck circ op) := by
  have hcount := splitPiles_count pileSizes deck
  have hlen := splitPiles_fst_length pileSizes deck
  constructor
  · simp only [reset, List.length_map]
    rw [hlen]
    rfl
  · simp only [Inv, totalCards, reset, List.length_map, sumLens_map_mkPile]
    have hrep : sumLens (List.replicate 8 ([] : List Card)) = 0 := by decide
    rw [hrep]
    omega

theorem dealRow_fst (s : GameState) :
    (dealRow s).1 = s ∨
      (dealRow s).1 = { s with stock := s.stock.drop 10,
                               waste := dealCards (s.stock.take 10) s.waste } := by
  simp only [dealRow]
  split_ifs <;> simp

theorem dealRow_Inv (s : GameState) (h : Inv s) : Inv (dealRow s).1 := by
  rcases dealRow_fst s with heq | heq
  · rw [heq]; exact h
  · rw [heq]
    obtain ⟨hw, ht⟩ := h
    constructor
    · simp [dealCards_length, hw]
    · simp only [totalCards] at ht ⊢
      rw [dealCards_sumLens]
      simp only [List.length_drop, List.length_take]
      omega

theorem tryMove_stock (s : GameState) (src idx dst : Nat) :
    (tryMove s src idx dst).1.stock = s.stock := by
  simp only [tryMove]
  split_ifs <;> rfl

theorem tryMove_waste_length (s : GameState) (src idx dst : Nat) :
    (tryMove s src idx dst).1.waste.length = s.waste.length := by
  by_cases h : (tryMove s src idx dst).2 = none
  · obtain ⟨-, -, -, -, heq⟩ := tryMove_success_char s src idx dst h
    rw [heq]
    simp
  · rw [tryMove_failure_eq s src idx dst h]

theorem tryMove_Inv (s : GameState) (src idx dst : Nat) (h : Inv s) :
    Inv (tryMove s src idx dst).1 := by
  obtain ⟨hw, ht⟩ := h
  constructor
  · rw [tryMove_waste_length]; exact hw
  · simp only [totalCards] at ht ⊢
    rw [tryMove_stock, tryMove_sumLens, tryMove_foundations]
    exact ht

theorem collectFoundation_preserves (s : GameState) (i : Nat) :
    totalCards (collectFoundation s i).1 = totalCards s ∧
    (collectFoundation s i).1.waste.length = s.waste.length := by
  by_cases hc : isCompleteSeq (s.waste.getD i []) = true
  · cases hx : firstFreeIdx s.foundations with
    | none =>
        have hcol : collectFoundation s i = (s, some CollectError.NoFreeFoundation) := by
          simp only [collectFoundation]
          rw [if_pos hc, hx]
        rw [hcol]
        exact ⟨rfl, rfl⟩
    | some f =>
        have hcol : collectFoundation s i =
            ({ s with waste := s.waste.set i (flipTop ((s.waste.getD i []).drop 13)),
                      foundations :=
                        s.foundations.set f ((s.waste.getD i []).take 13) }, none) := by
          simp only [collectFoundation]
          rw [if_pos hc, hx]
        rw [hcol]
        have hi : i < s.waste.length := by
          by_contra hge
          push_neg at hge
          rw [List.getD_eq_default _ _ hge] at hc
          simp [isCompleteSeq] at hc
        have h13 : 13 ≤ (s.waste.getD i []).length := isCompleteSeq_length hc
        obtain ⟨hflt, hfempty⟩ := firstFreeIdx_spec s.foundations f hx
        have h1 := sumLens_set s.waste i (flipTop ((s.waste.getD i []).drop 13)) hi
        have h2 := sumLens_set s.foundations f ((s.waste.getD i []).take 13) hflt
        rw [hfempty] at h2
        simp only [flipTop_length, List.length_drop, List.length_take,
          List.length_nil] at h1 h2
        refine ⟨?_, by simp⟩
        show s.stock.length +
            sumLens (s.waste.set i (flipTop ((s.waste.getD i []).drop 13))) +
            sumLens (s.foundations.set f ((s.waste.getD i []).take 13)) =
          s.stock.length + sumLens s.waste + sumLens s.foundations
        omega
  · have hcol : collectFoundation s i = (s, some CollectError.NoCompleteSequence) := by
      simp only [collectFoundation]
      rw [if_neg hc]
    rw [hcol]
    exact ⟨rfl, rfl⟩

theorem collectFoundation_Inv (s : GameState) (i : Nat) (h : Inv s) :
    Inv (collectFoundation s i).1 := by
  obtain ⟨hp, hl⟩ := collectFoundation_preserves s i
  exact ⟨hl.trans h.1, hp.trans h.2⟩

theorem reachable_Inv {s : GameState} (h : Reachable s) : Inv s := by
  induction h with
  | init deck circ op hlen => exact reset_Inv deck circ op hlen
  | deal s _ ih => exact dealRow_Inv s ih
  | move s src idx dst _ ih => exact tryMove_Inv s src idx dst ih
  | collect s i _ ih => exact collectFoundation_Inv s i ih

/-- C4: in every state reachable from a reset on a full double deck by
any sequence of `dealRow`, `tryMove` and `collectFoundation` calls —
successful or failed — the total number of cards across the stock, the
ten waste piles and the eight foundations is 104. -/
theorem reachable_totalCards (s : GameState) (h : Reachable s) :
    totalCards s = 104 :=
  (reachable_Inv h).2

theorem reachable_totalCards_witness :
    totalCards (reset fullDeck false false) = 104 :=
  reachable_totalCards _ (Reachable.init fullDeck false false (by rfl))

/-- C5: `reset(circular, open)` always succeeds (it is a total
function) and, on a full 104-card deck, leaves six cards in each of the
leftmost four waste piles, five in each of the remaining six, the
remaining 50 cards in the stock, and all eight foundations empty. -/
theorem reset_layout (deck : List Card) (circ op : Bool) (h : deck.length = 104) :
    (reset deck circ op).waste.map List.length = [6, 6, 6, 6, 5, 5, 5, 5, 5, 5] ∧
    (reset deck circ op).stock.length = 50 ∧
    (reset deck circ op).foundations = List.replicate 8 [] := by
  refine ⟨?_, ?_, rfl⟩
  · simp [reset, pileSizes, splitPiles, mkPile_length, h]
  · simp [reset, pileSizes, splitPiles, h]

theorem reset_layout_witness :
    (reset fullDeck true false).waste.map List.length = [6, 6, 6, 6, 5, 5, 5, 5, 5, 5] ∧
    (reset fullDeck true false).stock.length = 50 ∧
    (reset fullDeck true false).foundations = List.replicate 8 [] :=
  reset_layout fullDeck true false (by rfl)

/-- C7: whenever either option variable is written with its
write-trace attached, the option-change handler runs: it invokes the
engine's `reset` with the current values of both flags and then
`adjustOpen` with the current open flag, in that order — the game is
restarted instead of patched in place. -/
theorem optionChanged_resets (ui : UIState) (isCirc v : Bool)
    (htr : (if isCirc then ui.circular.hasTrace else ui.openVar.hasTrace) = true) :
    (writeVar ui isCirc v).2 =
      [EngineCall.reset (writeVar ui isCirc v).1.circular.value
        (writeVar ui isCirc v).1.openVar.value,
       EngineCall.adjustOpen (writeVar ui isCirc v).1.openVar.value] := by
  cases isCirc <;> simp_all [writeVar, optionChanged]

theorem optionChanged_resets_witness :
    (writeVar spiderInitOptions.1 true true).2 =
      [EngineCall.reset (writeVar spiderInitOptions.1 true true).1.circular.value
        (writeVar spiderInitOptions.1 true true).1.openVar.value,
       EngineCall.adjustOpen (writeVar spiderInitOptions.1 true true).1.openVar.value] :=
  optionChanged_resets spiderInitOptions.1 true true (by decide)

/-- C8: the menu's `New` command invokes `Spider.deal`, whose engine
call performs a reset-plus-initial-deal of the game state with the
current flags; and toggling either the Circular or the Open
checkbutton (their traces being attached) re-invokes the engine's
`reset`. -/
theorem menuNew_and_toggle (ui : UIState) (deck : List Card) (s : GameState)
    (hc : ui.circular.hasTrace = true) (ho : ui.openVar.hasTrace = true) :
    menuNewCommand ui = [EngineCall.deal ui.circular.value ui.openVar.value] ∧
    (EngineCall.deal ui.circular.value ui.openVar.value).apply deck s =
      reset deck ui.circular.value ui.openVar.value ∧
    (∃ rest, (toggleCheckbutton ui true).2 =
      EngineCall.reset (! ui.circular.value) ui.openVar.value :: rest) ∧
    (∃ rest, (toggleCheckbutton ui false).2 =
      EngineCall.reset ui.circular.value (! ui.openVar.value) :: rest) := by
  refine ⟨rfl, rfl, ?_, ?_⟩
  · refine ⟨[EngineCall.adjustOpen ui.openVar.value], ?_⟩
    simp [toggleCheckbutton, writeVar, optionChanged, hc]
  · refine ⟨[EngineCall.adjustOpen (! ui.openVar.value)], ?_⟩
    simp [toggleCheckbutton, writeVar, optionChanged, ho]

theorem menuNew_and_toggle_witness :
    menuNewCommand spiderInitOptions.1 =
      [EngineCall.deal spiderInitOptions.1.circular.value
        spiderInitOptions.1.openVar.value] ∧
    (EngineCall.deal spiderInitOptions.1.circular.value
        spiderInitOptions.1.openVar.value).apply fullDeck exMoveState =
      reset fullDeck spiderInitOptions.1.circular.value
        spiderInitOptions.1.openVar.value ∧
    (∃ rest, (toggleCheckbutton spiderInitOptions.1 true).2 =
      EngineCall.reset (! spiderInitOptions.1.circular.value)
        spiderInitOptions.1.openVar.value :: rest) ∧
    (∃ rest, (toggleCheckbutton spiderInitOptions.1 false).2 =
      EngineCall.reset spiderInitOptions.1.circular.value
        (! spiderInitOptions.1.openVar.value) :: rest) :=
  menuNew_and_toggle spiderInitOptions.1 fullDeck exMoveState (by decide) (by decide)

/-- C10: at program startup `Spider.__init__` sets both option
variables to False before attaching their change-handler traces: the
resulting UI state has both flags False, both traces attached, and the
handler emitted no engine call during initialisation — every session
begins as a standard non-circular, non-open game. -/
theorem startup_defaults :
    spiderInitOptions.1.circular.value = false ∧
    spiderInitOptions.1.openVar.value = false ∧
    spiderInitOptions.1.circular.hasTrace = true ∧
    spiderInitOptions.1.openVar.hasTrace = true ∧
    spiderInitOptions.2 = [] := by
  decide

end Spider
